import Mathlib

/-!
Verification development for the PO-scanner pipeline
(repository `ScannerProjectNoBarcode`, current pipeline `scannertest.py`;
`scanner.py` is a near-duplicate variant and `Scanner.old.py` a superseded
legacy variant).

The development shallowly embeds:

* the PO token parser: `re.search(r'[A-Z]*PO\d+', text)` as used by
  `get_PO_number_from_text` and by `extract_po_number_from_image`
  (`scannertest.py` lines 135 and 149);
* the text extractor `extract_po_number_from_image` (lines 109-140), with the
  image decode attempts, the OCR call and the exception structure modelled by
  an explicit environment of oracle outcomes;
* the per-event handler `POFileHandler.on_created` (lines 52-107) together
  with `rename_and_move` and `handle_no_po_numbers`, with `shutil.move` (and
  the preceding `os.makedirs`) modelled as one atomic filing step that either
  relocates the file or raises;
* the file readiness gate (the `while True` append-probe loop, lines 58-65),
  modelled by its probe outcome sequence.

Python `str` values are modelled as `List Char`; the regex class `[A-Z]` is
the ASCII range 65-90, and `\d` is the Unicode decimal-digit class
(category `Nd`), which is what a Python 3 `str` pattern matches — wider than
the `[0-9]` the spec writes.
-/

/-- Python strings are modelled as lists of characters. -/
abbrev Str := List Char

/-- The characters of a Lean string literal; used to write concrete inputs. -/
def strChars (s : String) : Str := s.data

/-- The character class `[A-Z]` of the PO regex (ASCII codes 65-90). -/
def isUpper (c : Char) : Bool := decide (65 ≤ c.toNat ∧ c.toNat ≤ 90)

/-- The ASCII digit class `[0-9]` (codes 48-57) — the class the claim and
the spec write for the PO token. The code's `\d` is the wider `isDigitPy`
below. -/
def isDigitCh (c : Char) : Bool := decide (48 ≤ c.toNat ∧ c.toNat ≤ 57)

/-- The Unicode decimal-digit ranges (category `Nd`, Unicode 15.0, the table
CPython ships): in a Python 3 `str` pattern, `\d` matches exactly these
code points. -/
def ndRanges : List (Nat × Nat) :=
  [(48, 57), (1632, 1641), (1776, 1785), (1984, 1993), (2406, 2415),
   (2534, 2543), (2662, 2671), (2790, 2799), (2918, 2927), (3046, 3055),
   (3174, 3183), (3302, 3311), (3430, 3439), (3558, 3567), (3664, 3673),
   (3792, 3801), (3872, 3881), (4160, 4169), (4240, 4249), (6112, 6121),
   (6160, 6169), (6470, 6479), (6608, 6617), (6784, 6793), (6800, 6809),
   (6992, 7001), (7088, 7097), (7232, 7241), (7248, 7257), (42528, 42537),
   (43216, 43225), (43264, 43273), (43472, 43481), (43504, 43513),
   (43600, 43609), (44016, 44025), (65296, 65305), (66720, 66729),
   (68912, 68921), (69734, 69743), (69872, 69881), (69942, 69951),
   (70096, 70105), (70384, 70393), (70736, 70745), (70864, 70873),
   (71248, 71257), (71360, 71369), (71472, 71481), (71904, 71913),
   (72016, 72025), (72784, 72793), (73040, 73049), (73120, 73129),
   (73552, 73561), (92768, 92777), (92864, 92873), (93008, 93017),
   (120782, 120831), (123200, 123209), (123632, 123641), (124144, 124153),
   (125264, 125273), (130032, 130041)]

/-- The character class `\d` as Python 3 matches it in a `str` pattern: any
Unicode decimal digit (category `Nd`), not only ASCII `[0-9]`. -/
def isDigitPy (c : Char) : Bool :=
  ndRanges.any fun r => decide (r.1 ≤ c.toNat ∧ c.toNat ≤ r.2)

/-- Matching the tail `PO\d+` of the pattern at the head of `cs`:
literal `P`, literal `O`, then a greedy non-empty digit run. Returns the
matched characters. -/
def matchPODigits (cs : Str) : Option Str :=
  match cs with
  | c1 :: c2 :: rest =>
    if c1 = 'P' ∧ c2 = 'O' then
      if rest.takeWhile isDigitPy = [] then none
      else some ('P' :: 'O' :: rest.takeWhile isDigitPy)
    else none
  | _ => none

/-- The backtracking of the greedy leading `[A-Z]*` at one start position:
try consuming `k` uppercase characters first (largest `k` first, as the
greedy engine does), then the `PO\d+` tail. `matchAt` calls this with `k`
equal to the length of the maximal uppercase run. -/
def tryWithUppers : Nat → Str → Option Str
  | 0, cs => matchPODigits cs
  | k + 1, cs =>
    match matchPODigits (cs.drop (k + 1)) with
    | some m => some (cs.take (k + 1) ++ m)
    | none => tryWithUppers k cs

/-- The regex `[A-Z]*PO\d+` matched (with Python semantics) at the start of
`cs`. -/
def matchAt (cs : Str) : Option Str :=
  tryWithUppers (cs.takeWhile isUpper).length cs

/-- `re.search`: scan start positions left to right, first position with a
match wins. -/
def searchPO : Str → Option Str
  | [] => none
  | c :: cs =>
    match matchAt (c :: cs) with
    | some m => some m
    | none => searchPO cs

/-- `get_PO_number_from_text` (`scannertest.py` lines 143-150):
`re.search(r'[A-Z]*PO\d+', ocr_text)`, returning the matched group or
`None`. `extract_po_number_from_image` runs the same search on the OCR
output (line 135). -/
def get_PO_number_from_text (ocr_text : Str) : Option Str :=
  searchPO ocr_text

/-- Specification-level predicate: `m` is a word of the language
`[A-Z]*PO[0-9]+` with ASCII digits, exactly as the claim and the spec write
the PO token pattern (to be compared with what the embedded code returns). -/
def MatchesPat (m : Str) : Prop :=
  ∃ us ds, m = us ++ 'P' :: 'O' :: ds ∧ (∀ c ∈ us, isUpper c = true) ∧
    ds ≠ [] ∧ (∀ c ∈ ds, isDigitCh c = true)

/-- Predicate for the language the code actually matches: `[A-Z]*PO\d+`
with `\d` any Unicode decimal digit. -/
def MatchesPatPy (m : Str) : Prop :=
  ∃ us ds, m = us ++ 'P' :: 'O' :: ds ∧ (∀ c ∈ us, isUpper c = true) ∧
    ds ≠ [] ∧ (∀ c ∈ ds, isDigitPy c = true)

/-- Specification-level predicate: `m` occurs as a substring of `s` starting
at index `i`. -/
def OccursAt (s : Str) (i : Nat) (m : Str) : Prop :=
  ∃ post, s.drop i = m ++ post

/-- Kinds of Python exception relevant to the handler: `PermissionError`
(an `OSError` subclass), another `OSError`/`IOError`, or an exception outside
the `OSError` hierarchy. -/
inductive PyExc where
  | permissionError
  | ioError
  | otherError
deriving DecidableEq

/-- Whether `except IOError` catches the exception (in Python 3 `IOError` is
`OSError`, and `PermissionError` is an `OSError` subclass). -/
def isOSError : PyExc → Bool
  | PyExc.permissionError => true
  | PyExc.ioError => true
  | PyExc.otherError => false

/-- Outcome of one `Image.open(...)`/`img.load()` attempt. -/
inductive DecodeOutcome where
  | ok
  | raise (e : PyExc)
deriving DecidableEq

/-- `file_access_tries = 5` (`scannertest.py` line 117). -/
def file_access_tries : Nat := 5

/-- How the decode `for` loop ends: `break` at iteration `i`, normal
exhaustion of `range`, or an exception not caught by `except IOError`. -/
inductive LoopExit where
  | broke (i : Nat)
  | exhausted
  | raised (i : Nat) (e : PyExc)
deriving DecidableEq

/-- The decode retry loop (`scannertest.py` lines 118-125): iterate from
attempt `i` with `r` iterations remaining; `break` on success, retry on an
`IOError`, propagate any other exception. -/
def decodeLoop (d : Nat → DecodeOutcome) : Nat → Nat → LoopExit
  | _, 0 => LoopExit.exhausted
  | i, r + 1 =>
    match d i with
    | DecodeOutcome.ok => LoopExit.broke i
    | DecodeOutcome.raise e =>
      if isOSError e then decodeLoop d (i + 1) r else LoopExit.raised i e

/-- Oracle environment for one file's processing: the outcome of each decode
attempt, the OCR engine call (`pytesseract.image_to_string`), the value of
`uuid.uuid4().hex`, and the outcome of the filing step
(`os.makedirs` + `shutil.move`, modelled as one atomic step: on success the
file is relocated, on failure it raises with the file still at its source). -/
structure Env where
  decode : Nat → DecodeOutcome
  ocr : Except PyExc Str
  uuidHex : Str
  moveOutcome : Option PyExc

/-- Trace of one run of `extract_po_number_from_image`: the result of the
body before the outer `except Exception`, whether the OCR engine was invoked,
and how many decode attempts were made. -/
structure ExtractTrace where
  inner : Except PyExc (Option Str)
  ocrInvoked : Bool
  attempts : Nat

/-- The body of `extract_po_number_from_image` (`scannertest.py` lines
115-136): run the decode retry loop; afterwards the code tests
`tries == file_access_tries - 1` and returns `None` when it holds (this is
how loop exhaustion is detected — note it also fires when the decode first
succeeded on the final attempt); otherwise it calls the OCR engine once and
searches its output for the PO pattern. -/
def extractRun (env : Env) : ExtractTrace :=
  match decodeLoop env.decode 0 file_access_tries with
  | LoopExit.raised i e =>
    { inner := Except.error e, ocrInvoked := false, attempts := i + 1 }
  | LoopExit.exhausted =>
    { inner := Except.ok none, ocrInvoked := false,
      attempts := file_access_tries }
  | LoopExit.broke i =>
    if i = file_access_tries - 1 then
      { inner := Except.ok none, ocrInvoked := false, attempts := i + 1 }
    else
      match env.ocr with
      | Except.error e =>
        { inner := Except.error e, ocrInvoked := true, attempts := i + 1 }
      | Except.ok text =>
        { inner := Except.ok (get_PO_number_from_text text),
          ocrInvoked := true, attempts := i + 1 }

/-- `extract_po_number_from_image` as seen by its caller: the body wrapped in
the outer `except Exception` (lines 138-140), which maps every exception to
`None`. -/
def extract_po_number_from_image (env : Env) : Option Str :=
  match (extractRun env).inner with
  | Except.ok v => v
  | Except.error _ => none

/-- ASCII lowering of one character, as `str.lower()` acts on the
characters relevant to the `.png` test. -/
def toLowerCh (c : Char) : Char :=
  if 65 ≤ c.toNat ∧ c.toNat ≤ 90 then Char.ofNat (c.toNat + 32) else c

/-- The last `n` characters of a string. -/
def lastN (l : Str) (n : Nat) : Str := l.drop (l.length - n)

/-- `file_path.lower().endswith('.png')` (`scannertest.py` line 68). -/
def isPngPath (p : Str) : Bool :=
  decide (lastN (p.map toLowerCh) 4 = strChars ".png")

/-- `os.path.basename`: the part after the last separator. -/
def pathBasename (p : Str) : Str :=
  (p.reverse.takeWhile (fun c => c != '/')).reverse

/-- The extension part of `os.path.splitext`: the suffix from the last dot
of the basename, where leading dots of the basename do not count. -/
def splitextExt (p : Str) : Str :=
  let base := pathBasename p
  let core := base.dropWhile (fun c => c == '.')
  let afterDot := core.reverse.takeWhile (fun c => c != '.')
  if afterDot.length = core.length then [] else '.' :: afterDot.reverse

/-- Where the file's bytes live after the handler finishes: still at its
intake path, in the finished directory under `name`, or in the error
directory under `name`. The filing step is atomic in this model, so a file
has exactly one location at every point. -/
inductive Loc where
  | intake
  | finishedAt (name : Str)
  | errorAt (name : Str)
deriving DecidableEq

/-- Observable outcome of one `on_created` invocation (after the readiness
gate): final location of the file, exception escaping the handler (if any),
whether the unsupported-format warning was logged, whether the extractor ran,
and whether the OCR engine was invoked. -/
structure HandlerResult where
  loc : Loc
  escaped : Option PyExc
  unsupportedLogged : Bool
  extracted : Bool
  ocrInvoked : Bool
deriving DecidableEq

/-- The part of `POFileHandler.on_created` after the readiness gate
(`scannertest.py` lines 67-107) together with `rename_and_move` and
`handle_no_po_numbers`: PNG check on the lowered path; on a PNG, extract the
PO number, then either move to the finished directory under
`{po}_{uuid.uuid4().hex[:6]}{ext}` or move to the error directory under the
original basename; the `try` around this catches only `PermissionError`, so
any other exception from the filing step escapes; non-PNG files are logged
and left in place. -/
def processAfterGate (env : Env) (file_path : Str) : HandlerResult :=
  if isPngPath file_path then
    let t := extractRun env
    match extract_po_number_from_image env with
    | some po =>
      if po = [] then
        match env.moveOutcome with
        | none =>
          { loc := Loc.errorAt (pathBasename file_path), escaped := none,
            unsupportedLogged := false, extracted := true,
            ocrInvoked := t.ocrInvoked }
        | some e =>
          { loc := Loc.intake,
            escaped := if e = PyExc.permissionError then none else some e,
            unsupportedLogged := false, extracted := true,
            ocrInvoked := t.ocrInvoked }
      else
        match env.moveOutcome with
        | none =>
          { loc := Loc.finishedAt
              (po ++ '_' :: (env.uuidHex.take 6 ++ splitextExt file_path)),
            escaped := none, unsupportedLogged := false, extracted := true,
            ocrInvoked := t.ocrInvoked }
        | some e =>
          { loc := Loc.intake,
            escaped := if e = PyExc.permissionError then none else some e,
            unsupportedLogged := false, extracted := true,
            ocrInvoked := t.ocrInvoked }
    | none =>
      match env.moveOutcome with
      | none =>
        { loc := Loc.errorAt (pathBasename file_path), escaped := none,
          unsupportedLogged := false, extracted := true,
          ocrInvoked := t.ocrInvoked }
      | some e =>
        { loc := Loc.intake,
          escaped := if e = PyExc.permissionError then none else some e,
          unsupportedLogged := false, extracted := true,
          ocrInvoked := t.ocrInvoked }
  else
    { loc := Loc.intake, escaped := none, unsupportedLogged := true,
      extracted := false, ocrInvoked := false }

/-- The readiness gate (`scannertest.py` lines 58-65) is the loop
`while True: try open(file_path, 'a'); break; except IOError: sleep`.
`probe n` tells whether the append-mode open of attempt `n` succeeds; the
loop exits at attempt `n` exactly when attempt `n` succeeds and all earlier
attempts failed. -/
def gateExitsAt (probe : Nat → Bool) (n : Nat) : Prop :=
  probe n = true ∧ ∀ i, i < n → probe i = false

/-- One completed `on_created` run for a (non-directory) file event: the
readiness gate exits at some attempt, after which the rest of the handler
produces `r`. If the gate never exits, the handler never completes and the
file is never touched. -/
def onCreatedCompletes (probe : Nat → Bool) (env : Env) (file_path : Str)
    (r : HandlerResult) : Prop :=
  (∃ n, gateExitsAt probe n) ∧ r = processAfterGate env file_path

/-- Concrete intake path of a PNG scan, used in witnesses. -/
def pScan : Str := strChars "waves/scan.png"

/-- Concrete intake path of an unsupported text file, used in witnesses. -/
def pTxt : Str := strChars "waves/note.txt"

/-- Concrete intake path with an upper-case extension, used in witnesses. -/
def pUpper : Str := strChars "waves/scan.PNG"

/-- A concrete 32-character `uuid.uuid4().hex` value, used in witnesses. -/
def hex32 : Str := strChars "0123456789abcdef0123456789abcdef"

/-- Hexadecimal lower-case alphabet of `uuid.uuid4().hex`
(digits and `a`-`f`). -/
def isHexLower (c : Char) : Bool :=
  decide ((48 ≤ c.toNat ∧ c.toNat ≤ 57) ∨ (97 ≤ c.toNat ∧ c.toNat ≤ 102))

/-- Environment in which every step succeeds and OCR reads `PO123`. -/
def envOk : Env :=
  { decode := fun _ => DecodeOutcome.ok, ocr := Except.ok (strChars "PO123"),
    uuidHex := hex32, moveOutcome := none }

/-- Like `envOk` but the filing step raises `PermissionError`. -/
def envPermMove : Env := { envOk with moveOutcome := some PyExc.permissionError }

/-- Like `envOk` but the filing step raises an exception that is not a
`PermissionError`. -/
def envOtherMove : Env := { envOk with moveOutcome := some PyExc.otherError }

/-- Decode raises `IOError` on attempts 0-3 and succeeds on attempt 4, the
final permitted attempt. -/
def envLastTry : Env :=
  { envOk with
    decode := fun i =>
      if i < 4 then DecodeOutcome.raise PyExc.ioError else DecodeOutcome.ok }

/-- Decode raises `IOError` on attempts 0-2 and succeeds on attempt 3. -/
def envFourthTry : Env :=
  { envOk with
    decode := fun i =>
      if i < 3 then DecodeOutcome.raise PyExc.ioError else DecodeOutcome.ok }

/-- Decode raises `IOError` on every attempt. -/
def envAllFail : Env :=
  { envOk with decode := fun _ => DecodeOutcome.raise PyExc.ioError }

/-- Like `envOk` but the OCR engine raises. -/
def envOcrErr : Env := { envOk with ocr := Except.error PyExc.otherError }

/-- A character cannot be both an uppercase letter and a decimal digit:
every `Nd` range lies outside ASCII 65-90. -/
theorem not_upper_and_digit (c : Char) :
    isUpper c = true → isDigitPy c = true → False := by
  intro h1 h2
  simp only [isDigitPy, List.any_eq_true] at h2
  obtain ⟨r, hr, hgood⟩ := h2
  rw [decide_eq_true_eq] at hgood
  have hsep : ∀ x ∈ ndRanges, x.2 < 65 ∨ 90 < x.1 := by decide
  have hx := hsep r hr
  simp only [isUpper, decide_eq_true_eq] at h1
  omega

/-- The length of `takeWhile` is at most the length of the list. -/
theorem takeWhile_length_le {α : Type} (p : α → Bool) (l : List α) :
    (l.takeWhile p).length ≤ l.length := by
  conv_rhs => rw [← List.takeWhile_append_dropWhile p l]
  rw [List.length_append]
  exact Nat.le_add_right _ _

/-- Taking at most the `takeWhile` run yields only satisfying elements. -/
theorem take_le_takeWhile_all {α : Type} (p : α → Bool) :
    ∀ (cs : List α) (j : Nat), j ≤ (cs.takeWhile p).length →
      ∀ c ∈ cs.take j, p c = true := by
  intro cs
  induction cs with
  | nil => intro j _ c hc; simp at hc
  | cons a l ih =>
    intro j hj c hc
    cases j with
    | zero => simp at hc
    | succ j' =>
      rw [List.takeWhile_cons] at hj
      cases hpa : p a with
      | false => simp [hpa] at hj
      | true =>
        rw [hpa] at hj
        simp only [if_true, List.length_cons] at hj
        rw [List.take_succ_cons] at hc
        rcases List.mem_cons.mp hc with h | h
        · rw [h]; exact hpa
        · exact ih j' (Nat.le_of_succ_le_succ hj) c h

/-- A run of satisfying elements is no longer than the `takeWhile` run of any
extension. -/
theorem all_le_takeWhile_length {α : Type} (p : α → Bool) (us t : List α)
    (h : ∀ c ∈ us, p c = true) :
    us.length ≤ ((us ++ t).takeWhile p).length := by
  induction us with
  | nil => simp
  | cons a l ih =>
    have ha : p a = true := h a (List.mem_cons_self a l)
    rw [List.cons_append, List.takeWhile_cons, ha]
    simp only [if_true, List.length_cons]
    exact Nat.succ_le_succ (ih fun c hc => h c (List.mem_cons_of_mem a hc))

/-- `takeWhile` over an all-satisfying block distributes over append. -/
theorem takeWhile_append_all {α : Type} (p : α → Bool) (ds r : List α)
    (h : ∀ c ∈ ds, p c = true) :
    (ds ++ r).takeWhile p = ds ++ r.takeWhile p := by
  induction ds with
  | nil => simp
  | cons a l ih =>
    have ha : p a = true := h a (List.mem_cons_self a l)
    rw [List.cons_append, List.takeWhile_cons, ha]
    simp only [if_true, List.cons_append]
    rw [ih fun c hc => h c (List.mem_cons_of_mem a hc)]

/-- Characterisation of a successful `PO\d+` tail match. -/
theorem matchPODigits_eq_some (cs m : Str) :
    matchPODigits cs = some m ↔
      ∃ rest, cs = 'P' :: 'O' :: rest ∧ rest.takeWhile isDigitPy ≠ [] ∧
        m = 'P' :: 'O' :: rest.takeWhile isDigitPy := by
  constructor
  · intro h
    match cs with
    | [] => simp [matchPODigits] at h
    | [c] => simp [matchPODigits] at h
    | c1 :: c2 :: rest =>
      simp only [matchPODigits] at h
      split at h
      · next hpo =>
        obtain ⟨h1, h2⟩ := hpo
        split at h
        · exact absurd h (by simp)
        · next hne =>
          refine ⟨rest, ?_, hne, ?_⟩
          · rw [h1, h2]
          · exact (Option.some.injEq _ _ ▸ h).symm
      · exact absurd h (by simp)
  · rintro ⟨rest, rfl, hne, rfl⟩
    simp [matchPODigits, hne]

/-- If the backtracking fails, the `PO\d+` tail matches at no tried offset. -/
theorem tryWithUppers_none (cs : Str) :
    ∀ k, tryWithUppers k cs = none →
      ∀ j, j ≤ k → matchPODigits (cs.drop j) = none := by
  intro k
  induction k with
  | zero =>
    intro h j hj
    rw [Nat.le_zero.mp hj, List.drop_zero]
    simpa [tryWithUppers] using h
  | succ k ih =>
    intro h j hj
    cases hm : matchPODigits (cs.drop (k + 1)) with
    | some m => simp [tryWithUppers, hm] at h
    | none =>
      simp only [tryWithUppers, hm] at h
      rcases Nat.le_succ_iff.mp hj with h' | h'
      · exact ih h j h'
      · rw [h']; exact hm

/-- A successful backtracking result decomposes into a tried offset `j` and a
`PO\d+` tail match there. -/
theorem tryWithUppers_some (cs : Str) :
    ∀ k m, tryWithUppers k cs = some m →
      ∃ j, j ≤ k ∧ ∃ m0, matchPODigits (cs.drop j) = some m0 ∧
        m = cs.take j ++ m0 := by
  intro k
  induction k with
  | zero =>
    intro m h
    refine ⟨0, Nat.le_refl 0, m, ?_, by simp⟩
    rw [List.drop_zero]
    simpa [tryWithUppers] using h
  | succ k ih =>
    intro m h
    cases hm : matchPODigits (cs.drop (k + 1)) with
    | some m0 =>
      simp only [tryWithUppers, hm] at h
      exact ⟨k + 1, Nat.le_refl _, m0, hm, (Option.some.injEq _ _ ▸ h).symm⟩
    | none =>
      simp only [tryWithUppers, hm] at h
      obtain ⟨j, hj, m0, hm0, heq⟩ := ih m h
      exact ⟨j, Nat.le_succ_of_le hj, m0, hm0, heq⟩

/-- Soundness of `matchAt`: a returned match is a word of the pattern and
occurs at the start of `cs`. -/
theorem matchAt_sound {cs m : Str} (h : matchAt cs = some m) :
    MatchesPatPy m ∧ ∃ r, cs = m ++ r := by
  obtain ⟨j, hj, m0, hm0, rfl⟩ := tryWithUppers_some cs _ m h
  obtain ⟨rest, hrest, hne, rfl⟩ := (matchPODigits_eq_some _ _).mp hm0
  constructor
  · refine ⟨cs.take j, rest.takeWhile isDigitPy, by simp, ?_, hne, ?_⟩
    · exact take_le_takeWhile_all isUpper cs j hj
    · intro c hc; exact List.mem_takeWhile_imp hc
  · refine ⟨rest.dropWhile isDigitPy, ?_⟩
    conv_lhs => rw [← List.take_append_drop j cs, hrest]
    conv_lhs =>
      rw [← @List.takeWhile_append_dropWhile _ isDigitPy rest]
    simp

/-- Completeness of `matchAt`: if some word of the pattern starts at the
head of `cs`, `matchAt` succeeds. -/
theorem matchAt_complete {cs m : Str} (hm : MatchesPatPy m)
    (hpre : ∃ r, cs = m ++ r) : ∃ m', matchAt cs = some m' := by
  obtain ⟨us, ds, rfl, hus, hne, hds⟩ := hm
  obtain ⟨r, rfl⟩ := hpre
  cases hmat : matchAt ((us ++ 'P' :: 'O' :: ds) ++ r) with
  | some m' => exact ⟨m', rfl⟩
  | none =>
    exfalso
    unfold matchAt at hmat
    rw [List.append_assoc] at hmat
    have hle : us.length ≤
        ((us ++ ('P' :: 'O' :: ds ++ r)).takeWhile isUpper).length :=
      all_le_takeWhile_length isUpper us _ hus
    have hnone := tryWithUppers_none _ _ hmat us.length hle
    rw [List.drop_left] at hnone
    rw [List.cons_append, List.cons_append] at hnone
    have hsome : matchPODigits ('P' :: 'O' :: (ds ++ r)) =
        some ('P' :: 'O' :: ((ds ++ r).takeWhile isDigitPy)) := by
      rw [matchPODigits_eq_some]
      refine ⟨ds ++ r, rfl, ?_, rfl⟩
      rw [takeWhile_append_all isDigitPy ds r hds]
      intro hnil
      exact hne (List.append_eq_nil.mp hnil).1
    rw [hnone] at hsome
    exact Option.noConfusion hsome

/-- An element revealed at the head of `drop i`, with `i` inside the
`takeWhile` run, satisfies the predicate. -/
theorem drop_head_sat {α : Type} (p : α → Bool) :
    ∀ (cs : List α) (i : Nat), i < (cs.takeWhile p).length →
      ∀ x xs, cs.drop i = x :: xs → p x = true := by
  intro cs
  induction cs with
  | nil => intro i hi; simp at hi
  | cons a l ih =>
    intro i hi x xs hx
    rw [List.takeWhile_cons] at hi
    cases hpa : p a with
    | false => rw [hpa] at hi; simp at hi
    | true =>
      rw [hpa] at hi
      simp only [if_true, List.length_cons] at hi
      cases i with
      | zero =>
        rw [List.drop_zero] at hx
        injection hx with h1 _
        rw [← h1]
        exact hpa
      | succ i' =>
        rw [List.drop_succ_cons] at hx
        exact ih i' (Nat.lt_of_succ_lt_succ hi) x xs hx

/-- Core uniqueness argument: inside the leading uppercase run, two distinct
start offsets cannot both expose a `PO` followed by a digit (the digit after
the first `PO` would have to be uppercase, an `O`, or a `P`). -/
theorem po_offset_lt_absurd (cs : Str) (j j' : Nat) (hlt : j < j')
    (hj' : j' ≤ (cs.takeWhile isUpper).length)
    (hd : ∃ d t, cs.drop j = 'P' :: 'O' :: d :: t ∧ isDigitPy d = true)
    (hd' : ∃ d t, cs.drop j' = 'P' :: 'O' :: d :: t ∧ isDigitPy d = true) :
    False := by
  obtain ⟨d, t, hdr, hdig⟩ := hd
  obtain ⟨d', t', hdr', hdig'⟩ := hd'
  have hdrop2 : cs.drop (j + 2) = d :: t := by
    have h2 := congrArg (List.drop 2) hdr
    rw [List.drop_drop] at h2
    simpa using h2
  have hk : (cs.takeWhile isUpper).length ≤ j + 2 := by
    by_contra hlt2
    push_neg at hlt2
    exact not_upper_and_digit d
      (drop_head_sat isUpper cs (j + 2) hlt2 d t hdrop2) hdig
  have hcases : j' = j + 1 ∨ j' = j + 2 := by omega
  rcases hcases with rfl | rfl
  · have h1 := congrArg (List.drop 1) hdr
    rw [List.drop_drop] at h1
    simp only [List.drop_succ_cons, List.drop_zero] at h1
    rw [hdr'] at h1
    injection h1 with hPO _
    exact absurd hPO (by decide)
  · rw [hdr'] at hdrop2
    injection hdrop2 with hPd _
    rw [← hPd] at hdig
    exact absurd hdig (by decide)

/-- Inside the leading uppercase run there is at most one start offset for
the `PO`-plus-digit tail. -/
theorem po_offset_unique (cs : Str) (j j' : Nat)
    (hj : j ≤ (cs.takeWhile isUpper).length)
    (hj' : j' ≤ (cs.takeWhile isUpper).length)
    (hd : ∃ d t, cs.drop j = 'P' :: 'O' :: d :: t ∧ isDigitPy d = true)
    (hd' : ∃ d t, cs.drop j' = 'P' :: 'O' :: d :: t ∧ isDigitPy d = true) :
    j = j' := by
  rcases Nat.lt_trichotomy j j' with h | h | h
  · exact (po_offset_lt_absurd cs j j' h hj' hd hd').elim
  · exact h
  · exact (po_offset_lt_absurd cs j' j h hj hd' hd).elim

/-- A successful `PO\d+` tail match exposes `P`, `O` and a digit. -/
theorem matchPODigits_head_digit {cs m : Str}
    (h : matchPODigits cs = some m) :
    ∃ d t, cs = 'P' :: 'O' :: d :: t ∧ isDigitPy d = true := by
  obtain ⟨rest, rfl, hne, rfl⟩ := (matchPODigits_eq_some _ _).mp h
  cases rest with
  | nil => simp at hne
  | cons d t =>
    refine ⟨d, t, rfl, ?_⟩
    cases hdd : isDigitPy d with
    | true => rfl
    | false => rw [List.takeWhile_cons, hdd] at hne; simp at hne

/-- Maximality of `matchAt`: the returned match is at least as long as any
word of the pattern starting at the same position. -/
theorem matchAt_maximal {cs m : Str} (h : matchAt cs = some m) :
    ∀ m', MatchesPatPy m' → (∃ r, cs = m' ++ r) → m'.length ≤ m.length := by
  intro m' hm' hpre
  unfold matchAt at h
  obtain ⟨j, hj, m0, hm0, rfl⟩ := tryWithUppers_some cs _ m h
  obtain ⟨us', ds', rfl, hus', hne', hds'⟩ := hm'
  obtain ⟨r', hr'⟩ := hpre
  rw [List.append_assoc] at hr'
  have hj'le : us'.length ≤ (cs.takeWhile isUpper).length := by
    rw [hr']
    exact all_le_takeWhile_length isUpper us' _ hus'
  have hdrop' : cs.drop us'.length = 'P' :: 'O' :: (ds' ++ r') := by
    rw [hr', List.drop_left, List.cons_append, List.cons_append]
  have hd1 := matchPODigits_head_digit hm0
  have hd2 : ∃ d t, cs.drop us'.length = 'P' :: 'O' :: d :: t ∧
      isDigitPy d = true := by
    cases ds' with
    | nil => exact absurd rfl hne'
    | cons d t =>
      refine ⟨d, t ++ r', ?_, hds' d (List.mem_cons_self d t)⟩
      rw [hdrop', List.cons_append]
  have hjj : j = us'.length := po_offset_unique cs j us'.length hj hj'le hd1 hd2
  subst hjj
  obtain ⟨rest, hrest, hneD, rfl⟩ := (matchPODigits_eq_some _ _).mp hm0
  have hresteq : rest = ds' ++ r' := by
    rw [hdrop'] at hrest
    injection hrest with _ h2
    injection h2 with _ h3
    exact h3.symm
  have hlen : ds'.length ≤ (rest.takeWhile isDigitPy).length := by
    rw [hresteq, takeWhile_append_all isDigitPy ds' r' hds', List.length_append]
    exact Nat.le_add_right _ _
  have htj : (cs.take us'.length).length = us'.length := by
    rw [List.length_take]
    exact Nat.min_eq_left
      (le_trans hj (takeWhile_length_le isUpper cs))
  simp only [List.length_append, List.length_cons, htj]
  omega

/-- `matchAt` fails on the empty string. -/
theorem matchAt_nil : matchAt [] = none := rfl

/-- A successful search decomposes into a first matching position. -/
theorem searchPO_some {s m : Str} (h : searchPO s = some m) :
    ∃ i, matchAt (s.drop i) = some m ∧
      ∀ j, j < i → matchAt (s.drop j) = none := by
  induction s with
  | nil => simp [searchPO] at h
  | cons c cs ih =>
    cases hm : matchAt (c :: cs) with
    | some m' =>
      simp only [searchPO, hm] at h
      refine ⟨0, ?_, ?_⟩
      · rw [List.drop_zero, hm, h]
      · intro j hj
        exact absurd hj (Nat.not_lt_zero j)
    | none =>
      simp only [searchPO, hm] at h
      obtain ⟨i, h1, h2⟩ := ih h
      refine ⟨i + 1, ?_, ?_⟩
      · rw [List.drop_succ_cons]
        exact h1
      · intro j hj
        cases j with
        | zero => rw [List.drop_zero]; exact hm
        | succ j' =>
          rw [List.drop_succ_cons]
          exact h2 j' (Nat.lt_of_succ_lt_succ hj)

/-- A failed search means no position matches. -/
theorem searchPO_none {s : Str} (h : searchPO s = none) :
    ∀ i, matchAt (s.drop i) = none := by
  induction s with
  | nil => intro i; rw [List.drop_nil]; exact matchAt_nil
  | cons c cs ih =>
    cases hm : matchAt (c :: cs) with
    | some m' => simp [searchPO, hm] at h
    | none =>
      simp only [searchPO, hm] at h
      intro i
      cases i with
      | zero => rw [List.drop_zero]; exact hm
      | succ i' =>
        rw [List.drop_succ_cons]
        exact ih h i'

/-- Any string the search returns is a word of the pattern. -/
theorem searchPO_matches {s m : Str} (h : searchPO s = some m) :
    MatchesPatPy m := by
  obtain ⟨i, h1, _⟩ := searchPO_some h
  exact (matchAt_sound h1).1

/-- ASCII digits are Unicode decimal digits. -/
theorem isDigitCh_imp_py (c : Char) (h : isDigitCh c = true) :
    isDigitPy c = true := by
  simp only [isDigitCh, decide_eq_true_eq] at h
  simp only [isDigitPy, List.any_eq_true]
  refine ⟨(48, 57), by decide, ?_⟩
  rw [decide_eq_true_eq]
  exact h

/-- A word of the claimed ASCII pattern is a word of the pattern the code
matches. -/
theorem matchesPat_imp_py {m : Str} (h : MatchesPat m) : MatchesPatPy m := by
  obtain ⟨us, ds, rfl, hus, hne, hds⟩ := h
  exact ⟨us, ds, rfl, hus, hne, fun c hc => isDigitCh_imp_py c (hds c hc)⟩

/-- Characters of an occurring substring are characters of the string. -/
theorem occursAt_mem {s : Str} {i : Nat} {m : Str} (h : OccursAt s i m) :
    ∀ c ∈ m, c ∈ s := by
  obtain ⟨post, hp⟩ := h
  intro c hc
  have hmem : c ∈ s.drop i := by
    rw [hp]
    exact List.mem_append.mpr (Or.inl hc)
  exact List.mem_of_mem_drop hmem

/-- A word of the claimed ASCII pattern contains an ASCII digit. -/
theorem matchesPat_digit {m : Str} (h : MatchesPat m) :
    ∃ c ∈ m, isDigitCh c = true := by
  obtain ⟨us, ds, rfl, -, hne, hds⟩ := h
  cases ds with
  | nil => exact absurd rfl hne
  | cons d t =>
    refine ⟨d, ?_, hds d (List.mem_cons_self d t)⟩
    exact List.mem_append.mpr (Or.inr (List.mem_cons_of_mem _
      (List.mem_cons_of_mem _ (List.mem_cons_self d t))))

/-- C1 counterexample: on `"PO٣"` (ending in U+0663, an Arabic-Indic decimal
digit) the code's `\d` matches and the parser returns `"PO٣"`, while no
substring of the input matches the claimed pattern `[A-Z]*PO[0-9]+` — for
which the claim requires `None`. -/
theorem C1_counterexample_unicode_digit :
    get_PO_number_from_text (strChars "PO٣") = some (strChars "PO٣") ∧
    ¬ ∃ i m, OccursAt (strChars "PO٣") i m ∧ MatchesPat m := by
  constructor
  · decide
  · rintro ⟨i, m, hocc, hmat⟩
    obtain ⟨c, hcm, hdig⟩ := matchesPat_digit hmat
    have hcs : c ∈ strChars "PO٣" := occursAt_mem hocc c hcm
    have hlist : strChars "PO٣" = ['P', 'O', '٣'] := rfl
    rw [hlist] at hcs
    simp only [List.mem_cons, List.not_mem_nil, or_false] at hcs
    rcases hcs with rfl | rfl | rfl <;> exact absurd hdig (by decide)

/-- C1 (amended): for every OCR text string, `get_PO_number_from_text` (and
the identical search inside `extract_po_number_from_image`) returns a
leftmost, greedy match of `[A-Z]*PO\d+` where `\d` matches any Unicode
decimal digit — not only `[0-9]` — and returns `None` exactly when no
substring matches that pattern; on inputs whose decimal digits are all
ASCII this coincides with the claimed `[A-Z]*PO[0-9]+` behaviour, and on
`"Ref: 99 APO1023 see PO55"` it returns `"APO1023"`. -/
theorem C1_po_parser_leftmost_py_digits (s : Str) :
    (∀ m, get_PO_number_from_text s = some m →
      ∃ i, OccursAt s i m ∧ MatchesPatPy m ∧
        (∀ j m', j < i → OccursAt s j m' → ¬ MatchesPatPy m') ∧
        (∀ m', OccursAt s i m' → MatchesPatPy m' → m'.length ≤ m.length)) ∧
    (get_PO_number_from_text s = none →
      ∀ i m', OccursAt s i m' → ¬ MatchesPatPy m') ∧
    ((∀ c ∈ s, isDigitPy c = true → isDigitCh c = true) →
      (∀ m, get_PO_number_from_text s = some m →
        ∃ i, OccursAt s i m ∧ MatchesPat m ∧
          (∀ j m', j < i → OccursAt s j m' → ¬ MatchesPat m') ∧
          (∀ m', OccursAt s i m' → MatchesPat m' → m'.length ≤ m.length)) ∧
      (get_PO_number_from_text s = none →
        ∀ i m', OccursAt s i m' → ¬ MatchesPat m')) ∧
    get_PO_number_from_text (strChars "Ref: 99 APO1023 see PO55") =
      some (strChars "APO1023") := by
  have main : ∀ m, get_PO_number_from_text s = some m →
      ∃ i, OccursAt s i m ∧ MatchesPatPy m ∧
        (∀ j m', j < i → OccursAt s j m' → ¬ MatchesPatPy m') ∧
        (∀ m', OccursAt s i m' → MatchesPatPy m' → m'.length ≤ m.length) := by
    intro m hm
    obtain ⟨i, h1, h2⟩ := searchPO_some hm
    obtain ⟨hpat, r, hr⟩ := matchAt_sound h1
    refine ⟨i, ⟨r, hr⟩, hpat, ?_, ?_⟩
    · intro j m' hj ho hpat'
      obtain ⟨m'', hm''⟩ := matchAt_complete hpat' ho
      rw [h2 j hj] at hm''
      exact Option.noConfusion hm''
    · intro m' ho hpat'
      exact matchAt_maximal h1 m' hpat' ho
  have noneCase : get_PO_number_from_text s = none →
      ∀ i m', OccursAt s i m' → ¬ MatchesPatPy m' := by
    intro hn i m' ho hpat'
    obtain ⟨m'', hm''⟩ := matchAt_complete hpat' ho
    rw [searchPO_none hn i] at hm''
    exact Option.noConfusion hm''
  refine ⟨main, noneCase, ?_, by decide⟩
  intro hAscii
  constructor
  · intro m hm
    obtain ⟨i, hocc, hpy, hleft, hmax⟩ := main m hm
    have hpat : MatchesPat m := by
      obtain ⟨us, ds, rfl, hus, hne, hds⟩ := hpy
      refine ⟨us, ds, rfl, hus, hne, fun c hc => ?_⟩
      refine hAscii c ?_ (hds c hc)
      refine occursAt_mem hocc c ?_
      exact List.mem_append.mpr (Or.inr (List.mem_cons_of_mem _
        (List.mem_cons_of_mem _ hc)))
    refine ⟨i, hocc, hpat, ?_, ?_⟩
    · intro j m' hj ho hm'
      exact hleft j m' hj ho (matchesPat_imp_py hm')
    · intro m' ho hm'
      exact hmax m' ho (matchesPat_imp_py hm')
  · intro hn i m' ho hm'
    exact noneCase hn i m' ho (matchesPat_imp_py hm')

/-- Witness for C1 (amended) on the concrete spec example, for both the
code's pattern and — via the all-ASCII-digits restriction — the claimed
ASCII pattern. -/
theorem C1_po_parser_leftmost_py_digits_witness :
    (∃ i, OccursAt (strChars "Ref: 99 APO1023 see PO55") i
        (strChars "APO1023") ∧ MatchesPatPy (strChars "APO1023") ∧
      (∀ j m', j < i →
        OccursAt (strChars "Ref: 99 APO1023 see PO55") j m' →
        ¬ MatchesPatPy m') ∧
      (∀ m', OccursAt (strChars "Ref: 99 APO1023 see PO55") i m' →
        MatchesPatPy m' → m'.length ≤ (strChars "APO1023").length)) ∧
    ∃ i, OccursAt (strChars "Ref: 99 APO1023 see PO55") i
        (strChars "APO1023") ∧ MatchesPat (strChars "APO1023") ∧
      (∀ j m', j < i →
        OccursAt (strChars "Ref: 99 APO1023 see PO55") j m' →
        ¬ MatchesPat m') ∧
      (∀ m', OccursAt (strChars "Ref: 99 APO1023 see PO55") i m' →
        MatchesPat m' → m'.length ≤ (strChars "APO1023").length) :=
  ⟨(C1_po_parser_leftmost_py_digits
      (strChars "Ref: 99 APO1023 see PO55")).1
      (strChars "APO1023") (by decide),
   ((C1_po_parser_leftmost_py_digits
      (strChars "Ref: 99 APO1023 see PO55")).2.2.1
      (by decide)).1 (strChars "APO1023") (by decide)⟩

/-- If every attempt in the window raises `IOError`, the decode loop runs all
its iterations and exhausts. -/
theorem decodeLoop_exhausted (d : Nat → DecodeOutcome) :
    ∀ (r i : Nat),
      (∀ j, i ≤ j → j < i + r → d j = DecodeOutcome.raise PyExc.ioError) →
      decodeLoop d i r = LoopExit.exhausted := by
  intro r
  induction r with
  | zero => intro i _; rfl
  | succ r ih =>
    intro i h
    have hd : d i = DecodeOutcome.raise PyExc.ioError :=
      h i (Nat.le_refl i) (by omega)
    simp only [decodeLoop, hd, isOSError, if_true]
    exact ih (i + 1) fun j h1 h2 => h j (Nat.le_of_succ_le h1) (by omega)

/-- If the extractor body produced a token, it came from a successful OCR
call whose output the PO search matched. -/
theorem extractRun_inner_some {env : Env} {t : Str}
    (h : (extractRun env).inner = Except.ok (some t)) :
    ∃ text, env.ocr = Except.ok text ∧
      get_PO_number_from_text text = some t := by
  cases hl : decodeLoop env.decode 0 file_access_tries with
  | raised i e => simp [extractRun, hl] at h
  | exhausted => simp [extractRun, hl] at h
  | broke i =>
    simp only [extractRun, hl] at h
    by_cases hi : i = file_access_tries - 1
    · rw [if_pos hi] at h
      simp at h
    · rw [if_neg hi] at h
      cases hocr : env.ocr with
      | error e => simp [hocr] at h
      | ok text =>
        simp only [hocr] at h
        simp only [Except.ok.injEq] at h
        exact ⟨text, rfl, h⟩

/-- The final location is the intake path exactly when the extension is not
`.png` or the filing step raised. -/
theorem processAfterGate_loc_intake_iff (env : Env) (p : Str) :
    (processAfterGate env p).loc = Loc.intake ↔
      (isPngPath p = false ∨ env.moveOutcome ≠ none) := by
  by_cases hpng : isPngPath p = true
  · cases hpo : extract_po_number_from_image env with
    | some po =>
      by_cases hnil : po = [] <;> cases hmv : env.moveOutcome <;>
        simp [processAfterGate, hpng, hpo, hnil, hmv]
    | none =>
      cases hmv : env.moveOutcome <;>
        simp [processAfterGate, hpng, hpo, hmv]
  · rw [Bool.not_eq_true] at hpng
    simp [processAfterGate, hpng]

/-- For a PNG path, the exception escaping the handler is determined by the
filing-step outcome: `PermissionError` is swallowed, everything else
escapes. -/
theorem processAfterGate_escaped (env : Env) (p : Str)
    (h : isPngPath p = true) :
    (processAfterGate env p).escaped =
      match env.moveOutcome with
      | none => none
      | some e => if e = PyExc.permissionError then none else some e := by
  cases hpo : extract_po_number_from_image env with
  | some po =>
    by_cases hnil : po = [] <;> cases hmv : env.moveOutcome <;>
      simp [processAfterGate, h, hpo, hnil, hmv]
  | none =>
    cases hmv : env.moveOutcome <;>
      simp [processAfterGate, h, hpo, hmv]

/-- For a PNG path the extractor runs and the unsupported-format warning is
not logged, whatever the extraction and filing outcomes. -/
theorem processAfterGate_png_fields (env : Env) (p : Str)
    (h : isPngPath p = true) :
    (processAfterGate env p).extracted = true ∧
    (processAfterGate env p).unsupportedLogged = false := by
  cases hpo : extract_po_number_from_image env with
  | some po =>
    by_cases hnil : po = [] <;> cases hmv : env.moveOutcome <;>
      simp [processAfterGate, h, hpo, hnil, hmv]
  | none =>
    cases hmv : env.moveOutcome <;>
      simp [processAfterGate, h, hpo, hmv]

/-- A file landing in the finished directory carries the
`{token}_{uuid hex take 6}{extension}` name. -/
theorem processAfterGate_finished_shape (env : Env) (p : Str) (nm : Str)
    (h : (processAfterGate env p).loc = Loc.finishedAt nm) :
    ∃ po, extract_po_number_from_image env = some po ∧ po ≠ [] ∧
      nm = po ++ '_' :: (env.uuidHex.take 6 ++ splitextExt p) := by
  by_cases hpng : isPngPath p = true
  · cases hpo : extract_po_number_from_image env with
    | some po =>
      by_cases hnil : po = []
      · cases hmv : env.moveOutcome <;>
          simp [processAfterGate, hpng, hpo, hnil, hmv] at h
      · cases hmv : env.moveOutcome with
        | none =>
          simp [processAfterGate, hpng, hpo, hnil, hmv] at h
          exact ⟨po, rfl, hnil, h.symm⟩
        | some e => simp [processAfterGate, hpng, hpo, hnil, hmv] at h
    | none =>
      cases hmv : env.moveOutcome <;>
        simp [processAfterGate, hpng, hpo, hmv] at h
  · rw [Bool.not_eq_true] at hpng
    simp [processAfterGate, hpng] at h

/-- A file landing in the error directory keeps its original basename. -/
theorem processAfterGate_error_shape (env : Env) (p : Str) (nm : Str)
    (h : (processAfterGate env p).loc = Loc.errorAt nm) :
    nm = pathBasename p := by
  by_cases hpng : isPngPath p = true
  · cases hpo : extract_po_number_from_image env with
    | some po =>
      by_cases hnil : po = [] <;> cases hmv : env.moveOutcome <;>
        simp [processAfterGate, hpng, hpo, hnil, hmv] at h
      exact h.symm
    | none =>
      cases hmv : env.moveOutcome <;>
        simp [processAfterGate, hpng, hpo, hmv] at h
      exact h.symm
  · rw [Bool.not_eq_true] at hpng
    simp [processAfterGate, hpng] at h

/-- C2 counterexample: with the readiness gate succeeding immediately (it
exits at attempt 0), a PNG whose filing step raises `PermissionError`
finishes processing (no exception escapes) with the file still at its
original intake path — so a file can remain in intake although the readiness
gate did not give up, contradicting the claim's "only when the readiness
gate gave up". -/
theorem C2_counterexample_intake_without_gate_giveup :
    gateExitsAt (fun _ => true) 0 ∧
    (processAfterGate envPermMove pScan).loc = Loc.intake ∧
    (processAfterGate envPermMove pScan).escaped = none := by
  refine ⟨⟨rfl, fun i hi => absurd hi (Nat.not_lt_zero i)⟩, ?_, ?_⟩ <;> decide

/-- C2 (amended): after a completed run the file resides at exactly one
location — finished directory, error directory, or its original intake
path — and it is at the intake path exactly when the extension is
unsupported or the filing step raised an exception (the readiness gate
itself never gives up: while it cannot open the file the handler loops and
never completes, leaving the file in place); it is never in two locations
at once (moves are atomic in this model). -/
theorem C2_file_resides_single_location (env : Env) (p : Str) :
    ((processAfterGate env p).loc = Loc.intake ∨
      (∃ nm, (processAfterGate env p).loc = Loc.finishedAt nm) ∨
      ∃ nm, (processAfterGate env p).loc = Loc.errorAt nm) ∧
    ((processAfterGate env p).loc = Loc.intake ↔
      (isPngPath p = false ∨ env.moveOutcome ≠ none)) ∧
    (∀ nm nm', ¬((processAfterGate env p).loc = Loc.finishedAt nm ∧
      (processAfterGate env p).loc = Loc.errorAt nm')) := by
  refine ⟨?_, processAfterGate_loc_intake_iff env p, ?_⟩
  · cases h : (processAfterGate env p).loc with
    | intake => exact Or.inl rfl
    | finishedAt nm => exact Or.inr (Or.inl ⟨nm, rfl⟩)
    | errorAt nm => exact Or.inr (Or.inr ⟨nm, rfl⟩)
  · rintro nm nm' ⟨h1, h2⟩
    rw [h1] at h2
    exact Loc.noConfusion h2

/-- Witness for C2 at a concrete input. -/
theorem C2_file_resides_single_location_witness :
    (processAfterGate envPermMove pScan).loc = Loc.intake :=
  (C2_file_resides_single_location envPermMove pScan).2.1.mpr
    (Or.inr (by decide))

/-- C3 counterexample: against a probe that fails on every attempt, the
readiness gate's `while True` loop never exits at any attempt count — it
does not stop after a bounded number of attempts, and there is no
`LockTimeout` result in the code. -/
theorem C3_counterexample_gate_never_exits :
    ¬ ∃ n, gateExitsAt (fun _ => false) n := by
  rintro ⟨n, hn, -⟩
  exact Bool.false_ne_true hn

/-- C3 (amended): the readiness gate retries without bound; when the probe
fails on every attempt the loop never exits, the handler never completes,
and in particular the file is never moved or modified — it remains at its
original intake path. -/
theorem C3_gate_retries_forever (probe : Nat → Bool)
    (h : ∀ n, probe n = false) :
    (∀ n, ¬ gateExitsAt probe n) ∧
    ∀ env p r, ¬ onCreatedCompletes probe env p r := by
  constructor
  · intro n hn
    obtain ⟨h1, -⟩ := hn
    rw [h n] at h1
    exact Bool.false_ne_true h1
  · rintro env p r ⟨⟨n, hn, -⟩, -⟩
    rw [h n] at hn
    exact Bool.false_ne_true hn

/-- Witness for C3 (amended) at the always-failing probe. -/
theorem C3_gate_retries_forever_witness :
    (∀ n, (fun _ => false : Nat → Bool) n = false) ∧
    ((∀ n, ¬ gateExitsAt (fun _ => false) n) ∧
      ∀ env p r, ¬ onCreatedCompletes (fun _ => false) env p r) :=
  ⟨fun _ => rfl, C3_gate_retries_forever (fun _ => false) fun _ => rfl⟩

/-- C4: evaluation at the failing input. When decode first succeeds on the
final permitted attempt (attempt index 4 of 5), the guard
`tries == file_access_tries - 1` misreads the successful break as
exhaustion: the OCR engine is never invoked and the extractor returns
`None`, although the image was decoded — while a success one attempt
earlier does invoke the OCR engine and classifies from its output. -/
theorem C4_success_on_final_attempt_bug :
    envLastTry.decode 4 = DecodeOutcome.ok ∧
    (extractRun envLastTry).attempts = 5 ∧
    (extractRun envLastTry).ocrInvoked = false ∧
    extract_po_number_from_image envLastTry = none ∧
    (extractRun envFourthTry).ocrInvoked = true ∧
    extract_po_number_from_image envFourthTry = some (strChars "PO123") := by
  refine ⟨rfl, rfl, rfl, rfl, rfl, ?_⟩
  decide

/-- C5 counterexample: a PNG whose filing step raises an exception that is
not a `PermissionError` makes that exception escape the per-event handler —
the `try` around the classification catches only `PermissionError`. -/
theorem C5_counterexample_exception_escapes :
    (processAfterGate envOtherMove pScan).escaped =
      some PyExc.otherError := by
  decide

/-- C5 (amended): exceptions raised during extraction and parsing are caught
inside the extractor and mapped to `None`; at the pipeline boundary only
`PermissionError` is caught, so the handler either finishes without an
escaping exception or lets exactly the non-`PermissionError` exception of
the filing step escape; when the filing step succeeds nothing escapes. -/
theorem C5_only_permission_error_caught (env : Env) (p : Str) :
    ((processAfterGate env p).escaped = none ∨
      ∃ e, (processAfterGate env p).escaped = some e ∧
        env.moveOutcome = some e ∧ e ≠ PyExc.permissionError) ∧
    (env.moveOutcome = none → (processAfterGate env p).escaped = none) ∧
    ∀ e, (extractRun env).inner = Except.error e →
      extract_po_number_from_image env = none := by
  refine ⟨?_, ?_, ?_⟩
  · by_cases hpng : isPngPath p = true
    · rw [processAfterGate_escaped env p hpng]
      cases hmv : env.moveOutcome with
      | none => exact Or.inl rfl
      | some e =>
        by_cases hperm : e = PyExc.permissionError
        · exact Or.inl (by simp [hperm])
        · exact Or.inr ⟨e, by simp [hperm], rfl, hperm⟩
    · rw [Bool.not_eq_true] at hpng
      exact Or.inl (by simp [processAfterGate, hpng])
  · intro hmv
    by_cases hpng : isPngPath p = true
    · rw [processAfterGate_escaped env p hpng, hmv]
    · rw [Bool.not_eq_true] at hpng
      simp [processAfterGate, hpng]
  · intro e he
    unfold extract_po_number_from_image
    rw [he]

/-- Witness for C5 (amended) at a concrete input. -/
theorem C5_only_permission_error_caught_witness :
    (processAfterGate envOk pScan).escaped = none :=
  (C5_only_permission_error_caught envOk pScan).2.1 rfl

/-- C6: a file filed with a PO token lands in the finished directory under
exactly `{token}_{6 lowercase hex characters}{original extension}` (given
that `uuid.uuid4().hex` is a 32-character lowercase hex string), and a file
filed without a token lands in the error directory under its original
basename unchanged. -/
theorem C6_destination_naming (env : Env) (p : Str)
    (h32 : env.uuidHex.length = 32)
    (hhex : ∀ c ∈ env.uuidHex, isHexLower c = true) :
    (∀ nm, (processAfterGate env p).loc = Loc.finishedAt nm →
      ∃ po sfx, extract_po_number_from_image env = some po ∧
        nm = po ++ '_' :: (sfx ++ splitextExt p) ∧ sfx.length = 6 ∧
        ∀ c ∈ sfx, isHexLower c = true) ∧
    ∀ nm, (processAfterGate env p).loc = Loc.errorAt nm →
      nm = pathBasename p := by
  constructor
  · intro nm h
    obtain ⟨po, hpo, -, rfl⟩ := processAfterGate_finished_shape env p nm h
    refine ⟨po, env.uuidHex.take 6, hpo, rfl, ?_, ?_⟩
    · rw [List.length_take, h32]
      decide
    · intro c hc
      exact hhex c (List.mem_of_mem_take hc)
  · exact fun nm h => processAfterGate_error_shape env p nm h

/-- Witness for C6 at a concrete input. -/
theorem C6_destination_naming_witness :
    (hex32.length = 32 ∧ ∀ c ∈ hex32, isHexLower c = true) ∧
    ∃ po sfx, extract_po_number_from_image envOk = some po ∧
      strChars "PO123_012345.png" = po ++ '_' :: (sfx ++ splitextExt pScan) ∧
      sfx.length = 6 ∧ ∀ c ∈ sfx, isHexLower c = true :=
  ⟨⟨by decide, by decide⟩,
    (C6_destination_naming envOk pScan (by decide) (by decide)).1
      (strChars "PO123_012345.png") (by decide)⟩

/-- C7: when every decode attempt fails with an `IOError`, the extractor
makes exactly `file_access_tries = 5` attempts, never invokes the OCR
engine, and returns its unreadable-image result `None`. -/
theorem C7_decode_exhaustion_bounded (env : Env)
    (h : ∀ i, i < file_access_tries →
      env.decode i = DecodeOutcome.raise PyExc.ioError) :
    (extractRun env).attempts = file_access_tries ∧
    (extractRun env).ocrInvoked = false ∧
    extract_po_number_from_image env = none := by
  have hloop : decodeLoop env.decode 0 file_access_tries =
      LoopExit.exhausted :=
    decodeLoop_exhausted env.decode file_access_tries 0
      fun j _ h2 => h j (by omega)
  refine ⟨?_, ?_, ?_⟩ <;>
    simp [extractRun, extract_po_number_from_image, hloop]

/-- Witness for C7 at a concrete input. -/
theorem C7_decode_exhaustion_bounded_witness :
    (∀ i, i < file_access_tries →
      envAllFail.decode i = DecodeOutcome.raise PyExc.ioError) ∧
    ((extractRun envAllFail).attempts = file_access_tries ∧
      (extractRun envAllFail).ocrInvoked = false ∧
      extract_po_number_from_image envAllFail = none) :=
  ⟨fun _ _ => rfl, C7_decode_exhaustion_bounded envAllFail fun _ _ => rfl⟩

/-- C8: a created file whose (lowered) path does not end in `.png` is only
logged as unsupported: the extractor does not run, the OCR engine is not
invoked, no exception escapes, and the file stays at its intake path. -/
theorem C8_unsupported_left_in_place (env : Env) (p : Str)
    (h : isPngPath p = false) :
    (processAfterGate env p).loc = Loc.intake ∧
    (processAfterGate env p).escaped = none ∧
    (processAfterGate env p).unsupportedLogged = true ∧
    (processAfterGate env p).extracted = false ∧
    (processAfterGate env p).ocrInvoked = false := by
  simp [processAfterGate, h]

/-- Witness for C8 at a concrete `.txt` input. -/
theorem C8_unsupported_left_in_place_witness :
    isPngPath pTxt = false ∧
    ((processAfterGate envOk pTxt).loc = Loc.intake ∧
      (processAfterGate envOk pTxt).escaped = none ∧
      (processAfterGate envOk pTxt).unsupportedLogged = true ∧
      (processAfterGate envOk pTxt).extracted = false ∧
      (processAfterGate envOk pTxt).ocrInvoked = false) :=
  ⟨by decide, C8_unsupported_left_in_place envOk pTxt (by decide)⟩

/-- C9: `extract_po_number_from_image` is total at its call boundary:
whenever the body raises, the outer `except Exception` maps it to `None`;
every returned token is a word of the PO pattern; and the result is always
either `None` or a token. -/
theorem C9_extractor_total (env : Env) :
    (∀ e, (extractRun env).inner = Except.error e →
      extract_po_number_from_image env = none) ∧
    (∀ t, extract_po_number_from_image env = some t → MatchesPatPy t) ∧
    (extract_po_number_from_image env = none ∨
      ∃ t, extract_po_number_from_image env = some t) := by
  refine ⟨?_, ?_, ?_⟩
  · intro e he
    unfold extract_po_number_from_image
    rw [he]
  · intro t ht
    unfold extract_po_number_from_image at ht
    cases hin : (extractRun env).inner with
    | error e => rw [hin] at ht; exact Option.noConfusion ht
    | ok v =>
      rw [hin] at ht
      have hv : v = some t := ht
      rw [hv] at hin
      obtain ⟨text, -, hsearch⟩ := extractRun_inner_some hin
      exact searchPO_matches hsearch
  · cases h : extract_po_number_from_image env with
    | none => exact Or.inl rfl
    | some t => exact Or.inr ⟨t, rfl⟩

/-- Witness for C9: an OCR-engine failure is mapped to `None`. -/
theorem C9_extractor_total_witness :
    extract_po_number_from_image envOcrErr = none :=
  (C9_extractor_total envOcrErr).1 PyExc.otherError rfl

/-- C10: the extension filter is case-insensitive — a path ending in any
letter-case variant of `.png` passes the `lower().endswith('.png')` check
(both as written and after lowering the whole path), and the file is
admitted to the classification pipeline: the extractor runs and no
unsupported-format warning is logged. -/
theorem C10_extension_case_insensitive (env : Env) (p : Str)
    (h : ∃ q e, p = q ++ e ∧ e.map toLowerCh = strChars ".png") :
    isPngPath p = true ∧ isPngPath (p.map toLowerCh) = true ∧
    (processAfterGate env p).extracted = true ∧
    (processAfterGate env p).unsupportedLogged = false := by
  obtain ⟨q, e, rfl, he⟩ := h
  have hpng : isPngPath (q ++ e) = true := by
    unfold isPngPath lastN
    simp only [decide_eq_true_eq, List.map_append, he, List.length_append]
    have h4 : (strChars ".png").length = 4 := rfl
    rw [h4, Nat.add_sub_cancel, List.drop_left]
  have hpng2 : isPngPath ((q ++ e).map toLowerCh) = true := by
    unfold isPngPath lastN
    simp only [decide_eq_true_eq, List.map_append, he, List.length_append]
    have hc : (strChars ".png").map toLowerCh = strChars ".png" := by decide
    have h4 : (strChars ".png").length = 4 := rfl
    rw [hc, h4, Nat.add_sub_cancel, List.drop_left]
  obtain ⟨hext, hlog⟩ := processAfterGate_png_fields env (q ++ e) hpng
  exact ⟨hpng, hpng2, hext, hlog⟩

/-- Witness for C10 at a concrete `.PNG` input. -/
theorem C10_extension_case_insensitive_witness :
    (pUpper = strChars "waves/scan" ++ strChars ".PNG" ∧
      (strChars ".PNG").map toLowerCh = strChars ".png") ∧
    (isPngPath pUpper = true ∧ isPngPath (pUpper.map toLowerCh) = true ∧
      (processAfterGate envOk pUpper).extracted = true ∧
      (processAfterGate envOk pUpper).unsupportedLogged = false) :=
  ⟨⟨by decide, by decide⟩,
    C10_extension_case_insensitive envOk pUpper
      ⟨strChars "waves/scan", strChars ".PNG", by decide, by decide⟩⟩
